import Mathlib

/-!
Verification of the artifact-detection core of the mnelab repository.

The definitions below are shallow embeddings of the Python code in
`src/mnelab/utils/artifact_detection.py` and
`src/mnelab/dialogs/artifact_detection.py`.  Real-valued numpy arrays are
modelled as total functions over rational sample values; the one place the
source computes a square root (`np.std` in the kurtosis detector) is modelled
with `Real.sqrt` inside a `Prop`-valued flag.
-/

set_option maxHeartbeats 1000000

namespace Mnelab

/-- Epoched data: `val i c s` is the sample of epoch `i`, channel `c`, time
point `s`.  This corresponds to the `(n_epochs, n_channels, n_times)` array
returned by `data.get_data()` in the detector functions. -/
structure EpochsData where
  nEpochs : ℕ
  nChannels : ℕ
  nTimes : ℕ
  val : ℕ → ℕ → ℕ → ℚ

/-- Arithmetic mean of a list of rationals (numpy `mean`; `0` for empty
input, since rational division by zero is zero). -/
def mean (l : List ℚ) : ℚ := l.sum / l.length

/-- The time series of channel `c` in epoch `i`. -/
def timeSlice (d : EpochsData) (i c : ℕ) : List ℚ :=
  (List.range d.nTimes).map (d.val i c)

/-- Mean over the time axis for epoch `i`, channel `c`
(`epochs_data.mean(axis=-1, keepdims=True)`). -/
def epochMean (d : EpochsData) (i c : ℕ) : ℚ := mean (timeSlice d i c)

/-- `find_bad_epochs_amplitude(data, threshold)`: an epoch is flagged when
any sample of any channel deviates from that epoch-and-channel's mean by
strictly more than `threshold` in absolute value
(`np.any(np.abs(epochs_data - epoch_mean) > threshold, axis=(1, 2))`). -/
def find_bad_epochs_amplitude (d : EpochsData) (threshold : ℚ) : List Bool :=
  (List.range d.nEpochs).map fun i =>
    (List.range d.nChannels).any fun c =>
      (List.range d.nTimes).any fun s =>
        decide (|d.val i c s - epochMean d i c| > threshold)

/-- Maximum of a list of rationals (`np.max` over the time axis; `0` for the
empty list, which the source never hits for a nonempty axis). -/
def lmax : List ℚ → ℚ
  | [] => 0
  | x :: xs => xs.foldl max x

/-- Minimum of a list of rationals (`np.min` over the time axis). -/
def lmin : List ℚ → ℚ
  | [] => 0
  | x :: xs => xs.foldl min x

/-- Peak-to-peak value of epoch `i`, channel `c` over time
(`np.ptp(data.get_data(), axis=2)`). -/
def ptpVal (d : EpochsData) (i c : ℕ) : ℚ :=
  lmax (timeSlice d i c) - lmin (timeSlice d i c)

/-- `find_bad_epochs_ptp(data, threshold)`: an epoch is flagged when any
channel's peak-to-peak value over time strictly exceeds `threshold`
(`np.any(ptp_values > threshold, axis=1)`). -/
def find_bad_epochs_ptp (d : EpochsData) (threshold : ℚ) : List Bool :=
  (List.range d.nEpochs).map fun i =>
    (List.range d.nChannels).any fun c => decide (ptpVal d i c > threshold)

lemma getD_range_map {α : Type} (dflt : α) (f : ℕ → α) {n i : ℕ} (hi : i < n) :
    ((List.range n).map f).getD i dflt = f i := by
  rw [List.getD_eq_getElem?_getD, List.getElem?_map, List.getElem?_range hi]
  rfl

/-- Central moment of order `k` with population normalisation
(the biased moments used by `scipy.stats.kurtosis` with its defaults). -/
def centralMoment (l : List ℚ) (k : ℕ) : ℚ :=
  mean (l.map (fun x => (x - mean l) ^ k))

/-- Fisher kurtosis over a time series
(`scipy.stats.kurtosis(..., fisher=True)` with the default `bias=True`):
the fourth central moment over the squared second central moment, minus 3. -/
def kurtosis (l : List ℚ) : ℚ :=
  centralMoment l 4 / (centralMoment l 2) ^ 2 - 3

/-- Per-epoch per-channel kurtosis over time
(`kurt_values = stats.kurtosis(data.get_data(), axis=2, fisher=True)`). -/
def kurtVal (d : EpochsData) (i c : ℕ) : ℚ := kurtosis (timeSlice d i c)

/-- Mean of the kurtosis values across epochs, per channel
(`kurt_mean = np.mean(kurt_values, axis=0)`). -/
def kurtMean (d : EpochsData) (c : ℕ) : ℚ :=
  mean ((List.range d.nEpochs).map fun i => kurtVal d i c)

/-- Population variance of the kurtosis values across epochs, per channel;
`np.std(kurt_values, axis=0)` is its square root. -/
def kurtVar (d : EpochsData) (c : ℕ) : ℚ :=
  mean ((List.range d.nEpochs).map fun i => (kurtVal d i c - kurtMean d c) ^ 2)

/-- The source's z-score comparison for epoch `i`, channel `c`
(`z_scores = np.abs((kurt_values - kurt_mean) / (kurt_std + 1e-10))`, then
`z_scores > threshold`).  Note the absolute value around the quotient. -/
def kurtZGt (d : EpochsData) (threshold : ℚ) (i c : ℕ) : Prop :=
  |((kurtVal d i c - kurtMean d c : ℚ) : ℝ)| /
      (Real.sqrt ((kurtVar d c : ℚ) : ℝ) + 1 / 10 ^ 10) > (threshold : ℝ)

/-- `find_bad_epochs_kurtosis(data, threshold)`: an epoch is flagged when any
channel's absolute kurtosis z-score strictly exceeds `threshold`
(`np.any(z_scores > threshold, axis=1)`). -/
def find_bad_epochs_kurtosis (d : EpochsData) (threshold : ℚ) : List Prop :=
  (List.range d.nEpochs).map fun i =>
    ∃ c, c < d.nChannels ∧ kurtZGt d threshold i c

/-- Signed z-score comparison following the claim's words, which describe the
z-score as `(value - mean) / (std + 1e-10)` without an absolute value.  This
definition exists only to compare the claim with the source, which applies
`np.abs` before comparing with the threshold. -/
def kurtZGtClaimed (d : EpochsData) (threshold : ℚ) (i c : ℕ) : Prop :=
  ((kurtVal d i c - kurtMean d c : ℚ) : ℝ) /
      (Real.sqrt ((kurtVar d c : ℚ) : ℝ) + 1 / 10 ^ 10) > (threshold : ℝ)

/-- Kurtosis detector as the claim words it (signed z-scores). -/
def find_bad_epochs_kurtosis_claimed (d : EpochsData) (threshold : ℚ) : List Prop :=
  (List.range d.nEpochs).map fun i =>
    ∃ c, c < d.nChannels ∧ kurtZGtClaimed d threshold i c

/-- C4: the amplitude-extreme detector flags epoch `i` iff some sample in
some channel deviates from that epoch-and-channel's mean over time by
strictly more than `threshold` in absolute value; when every deviation is at
most `threshold` (in particular when the maximum deviation equals the
threshold exactly) the epoch is not flagged. -/
theorem find_bad_epochs_amplitude_iff (d : EpochsData) (threshold : ℚ) (i : ℕ)
    (hi : i < d.nEpochs) :
    ((find_bad_epochs_amplitude d threshold).getD i false = true ↔
       ∃ c < d.nChannels, ∃ s < d.nTimes,
         |d.val i c s - epochMean d i c| > threshold) ∧
    ((∀ c < d.nChannels, ∀ s < d.nTimes,
         |d.val i c s - epochMean d i c| ≤ threshold) →
       (find_bad_epochs_amplitude d threshold).getD i false = false) := by
  have h1 : (find_bad_epochs_amplitude d threshold).getD i false =
      ((List.range d.nChannels).any fun c =>
        (List.range d.nTimes).any fun s =>
          decide (|d.val i c s - epochMean d i c| > threshold)) :=
    getD_range_map false _ hi
  constructor
  · rw [h1]
    simp [List.any_eq_true, List.mem_range]
  · intro hall
    rw [h1, Bool.eq_false_iff]
    intro hc
    simp only [List.any_eq_true, List.mem_range, decide_eq_true_eq] at hc
    obtain ⟨c, hc1, s, hs1, hgt⟩ := hc
    exact absurd hgt (not_lt.mpr (hall c hc1 s hs1))

/-- Concrete single-epoch dataset used to witness the amplitude theorem:
one channel, two samples `0` and `2` (mean `1`, deviations `1`). -/
def ampWitnessData : EpochsData :=
  ⟨1, 1, 2, fun _ _ s => if s = 0 then 0 else 2⟩

theorem find_bad_epochs_amplitude_iff_witness :
    ((find_bad_epochs_amplitude ampWitnessData (1/2)).getD 0 false = true ↔
       ∃ c < ampWitnessData.nChannels, ∃ s < ampWitnessData.nTimes,
         |ampWitnessData.val 0 c s - epochMean ampWitnessData 0 c| > (1/2 : ℚ)) ∧
    ((∀ c < ampWitnessData.nChannels, ∀ s < ampWitnessData.nTimes,
         |ampWitnessData.val 0 c s - epochMean ampWitnessData 0 c| ≤ (1/2 : ℚ)) →
       (find_bad_epochs_amplitude ampWitnessData (1/2)).getD 0 false = false) :=
  find_bad_epochs_amplitude_iff ampWitnessData (1/2) 0 (by decide)

/-- C7: the peak-to-peak detector flags epoch `i` iff some channel's
max-minus-min over time is strictly greater than `threshold`. -/
theorem find_bad_epochs_ptp_iff (d : EpochsData) (threshold : ℚ) (i : ℕ)
    (hi : i < d.nEpochs) :
    (find_bad_epochs_ptp d threshold).getD i false = true ↔
      ∃ c < d.nChannels,
        lmax (timeSlice d i c) - lmin (timeSlice d i c) > threshold := by
  have h1 : (find_bad_epochs_ptp d threshold).getD i false =
      ((List.range d.nChannels).any fun c => decide (ptpVal d i c > threshold)) :=
    getD_range_map false _ hi
  rw [h1]
  simp [List.any_eq_true, List.mem_range, ptpVal]

theorem find_bad_epochs_ptp_iff_witness :
    (find_bad_epochs_ptp ampWitnessData 1).getD 0 false = true ↔
      ∃ c < ampWitnessData.nChannels,
        lmax (timeSlice ampWitnessData 0 c) - lmin (timeSlice ampWitnessData 0 c) >
          (1 : ℚ) :=
  find_bad_epochs_ptp_iff ampWitnessData 1 0 (by decide)

/-- Two epochs, one channel, four samples each: epoch 0 is `[0, 0, 0, 1]`
(kurtosis `-2/3`) and epoch 1 is `[0, 1, 0, 1]` (kurtosis `-2`).  The kurtosis
mean across epochs is `-4/3` and the standard deviation is `2/3`, so epoch 1
has signed z-score `≈ -1` while its absolute z-score is `≈ 1`. -/
def kurtWitnessData : EpochsData :=
  ⟨2, 1, 4, fun i _ s =>
    if i = 0 then (if s = 3 then 1 else 0) else (if s % 2 = 1 then 1 else 0)⟩

lemma kurtWitness_val0 : kurtVal kurtWitnessData 0 0 = -2/3 := by
  norm_num [kurtVal, kurtosis, centralMoment, mean, timeSlice, kurtWitnessData,
    List.range_succ]

lemma kurtWitness_val1 : kurtVal kurtWitnessData 1 0 = -2 := by
  norm_num [kurtVal, kurtosis, centralMoment, mean, timeSlice, kurtWitnessData,
    List.range_succ]

lemma kurtWitness_mean : kurtMean kurtWitnessData 0 = -4/3 := by
  norm_num [kurtMean, kurtVal, kurtosis, centralMoment, mean, timeSlice,
    kurtWitnessData, List.range_succ]

lemma kurtWitness_var : kurtVar kurtWitnessData 0 = 4/9 := by
  norm_num [kurtVar, kurtMean, kurtVal, kurtosis, centralMoment, mean, timeSlice,
    kurtWitnessData, List.range_succ]

lemma kurtWitness_sqrt : Real.sqrt ((kurtVar kurtWitnessData 0 : ℚ) : ℝ) = 2/3 := by
  rw [kurtWitness_var,
    show (((4:ℚ)/9 : ℚ) : ℝ) = ((2/3 : ℝ)) ^ 2 by push_cast; norm_num]
  exact Real.sqrt_sq (by norm_num)

/-- C2 counterexample: on `kurtWitnessData` with threshold `1/2`, the source
flags epoch 1 (its absolute z-score is `(2/3)/(2/3 + 1e-10) > 1/2`), but no
channel's signed z-score exceeds `1/2` (epoch 1's signed z-score is negative),
so the claim's "iff" with the signed z-score formula fails. -/
theorem kurtosis_claim_counterexample :
    (find_bad_epochs_kurtosis kurtWitnessData (1/2)).getD 1 False ∧
    ¬ (find_bad_epochs_kurtosis_claimed kurtWitnessData (1/2)).getD 1 False := by
  have hcode : (find_bad_epochs_kurtosis kurtWitnessData (1/2)).getD 1 False =
      ∃ c, c < kurtWitnessData.nChannels ∧ kurtZGt kurtWitnessData (1/2) 1 c :=
    getD_range_map False _ (by decide)
  have hclaimed : (find_bad_epochs_kurtosis_claimed kurtWitnessData (1/2)).getD 1 False =
      ∃ c, c < kurtWitnessData.nChannels ∧ kurtZGtClaimed kurtWitnessData (1/2) 1 c :=
    getD_range_map False _ (by decide)
  have hdiff : ((kurtVal kurtWitnessData 1 0 - kurtMean kurtWitnessData 0 : ℚ) : ℝ) =
      -(2/3) := by
    rw [kurtWitness_val1, kurtWitness_mean]; push_cast; norm_num
  constructor
  · rw [hcode]
    refine ⟨0, by decide, ?_⟩
    unfold kurtZGt
    rw [hdiff, kurtWitness_sqrt, abs_neg, abs_of_nonneg (by norm_num)]
    push_cast
    rw [gt_iff_lt, lt_div_iff₀ (by norm_num)]
    norm_num
  · rw [hclaimed]
    rintro ⟨c, hc, hz⟩
    have hc1 : c < 1 := hc
    have hc0 : c = 0 := by omega
    subst hc0
    unfold kurtZGtClaimed at hz
    rw [hdiff, kurtWitness_sqrt] at hz
    push_cast at hz
    have hneg : (-(2/3) : ℝ) / (2/3 + 1 / 10 ^ 10) < 0 :=
      div_neg_of_neg_of_pos (by norm_num) (by norm_num)
    linarith

/-- C2 (amended): the kurtosis detector flags epoch `i` iff some channel's
ABSOLUTE z-score `|kurtosis - mean| / (std + 1e-10)` strictly exceeds the
threshold; an epoch none of whose channels' absolute z-scores exceeds the
threshold is not flagged.  (The source applies `np.abs` to the z-scores; the
claim's signed formula is refuted by `kurtosis_claim_counterexample`.) -/
theorem find_bad_epochs_kurtosis_iff (d : EpochsData) (threshold : ℚ) (i : ℕ)
    (hi : i < d.nEpochs) :
    (find_bad_epochs_kurtosis d threshold).getD i False ↔
      ∃ c < d.nChannels,
        |((kurtVal d i c - kurtMean d c : ℚ) : ℝ)| /
            (Real.sqrt ((kurtVar d c : ℚ) : ℝ) + 1 / 10 ^ 10) > (threshold : ℝ) := by
  have h1 : (find_bad_epochs_kurtosis d threshold).getD i False =
      ∃ c, c < d.nChannels ∧ kurtZGt d threshold i c := getD_range_map False _ hi
  rw [h1]
  exact Iff.rfl

theorem find_bad_epochs_kurtosis_iff_witness :
    (find_bad_epochs_kurtosis kurtWitnessData (1/2)).getD 0 False ↔
      ∃ c < kurtWitnessData.nChannels,
        |((kurtVal kurtWitnessData 0 c - kurtMean kurtWitnessData c : ℚ) : ℝ)| /
            (Real.sqrt ((kurtVar kurtWitnessData c : ℚ) : ℝ) + 1 / 10 ^ 10) >
          ((1/2 : ℚ) : ℝ) :=
  find_bad_epochs_kurtosis_iff kurtWitnessData (1/2) 0 (by decide)

/-- Channel kind as distinguished by `find_bad_epochs_autoreject`: the keys
`"eeg"`, `"mag"`, `"grad"` of the autoreject threshold dict are handled, any
other channel type falls into the `continue` branch. -/
inductive ChKind where
  | eeg : ChKind
  | mag : ChKind
  | grad : ChKind
  | other : ChKind
deriving DecidableEq

/-- Channel indices of a given kind (`mne.pick_types`), in ascending order. -/
def pickTypes (chTypes : ℕ → ChKind) (nChannels : ℕ) (k : ChKind) : List ℕ :=
  (List.range nChannels).filter fun c => chTypes c = k

/-- One `bad_epochs |= np.any(np.abs(ch_data) > threshold, axis=(1, 2))` step
of the autoreject wrapper, for one `(ch_type, threshold)` entry of the
rejection dict. -/
def autorejectStep (chTypes : ℕ → ChKind) (d : EpochsData) (bad : List Bool)
    (entry : ChKind × ℚ) : List Bool :=
  if entry.1 = ChKind.other then bad
  else
    let picks := pickTypes chTypes d.nChannels entry.1
    if picks.length = 0 then bad
    else
      List.zipWith or bad
        ((List.range d.nEpochs).map fun i =>
          picks.any fun c =>
            (List.range d.nTimes).any fun s => decide (|d.val i c s| > entry.2))

/-- `find_bad_epochs_autoreject(data)`.  The availability flag models
`have["autoreject"]`; `rejectDict` models the output of the external
`autoreject.get_rejection_threshold(data, decim=2)` call, and `chTypes` models
the channel-type information of `data.info` consulted by `mne.pick_types`.
When the dependency is missing the function raises
`ImportError("The autoreject package is required for this method.")`,
modelled as `Except.error`; otherwise it folds the per-type threshold test
over the dict starting from `np.zeros(len(data), dtype=bool)`. -/
def find_bad_epochs_autoreject (haveAutoreject : Bool)
    (rejectDict : List (ChKind × ℚ)) (chTypes : ℕ → ChKind) (d : EpochsData) :
    Except String (List Bool) :=
  if !haveAutoreject then
    Except.error "The autoreject package is required for this method."
  else
    Except.ok (rejectDict.foldl (autorejectStep chTypes d)
      (List.replicate d.nEpochs false))

/-- Method registry names built by `ArtifactDetectionDialog.__init__`: the
`"AutoReject"` entry is added iff `have["autoreject"]` is truthy. -/
def detection_method_names (haveAutoreject : Bool) : List String :=
  ["Extreme values", "Peak-to-peak", "Kurtosis"] ++
    (if haveAutoreject then ["AutoReject"] else [])

/-- C8: calling the autoreject wrapper without the optional dependency yields
the availability error naming the autoreject package, and the method registry
then has no `"AutoReject"` entry; with the dependency available the call
returns a result (no availability error) and the registry offers the method. -/
theorem autoreject_availability (rejectDict : List (ChKind × ℚ))
    (chTypes : ℕ → ChKind) (d : EpochsData) :
    (find_bad_epochs_autoreject false rejectDict chTypes d =
        Except.error "The autoreject package is required for this method." ∧
      "AutoReject" ∉ detection_method_names false) ∧
    ((∃ r, find_bad_epochs_autoreject true rejectDict chTypes d = Except.ok r) ∧
      "AutoReject" ∈ detection_method_names true) := by
  refine ⟨⟨rfl, by decide⟩, ⟨⟨_, rfl⟩, by decide⟩⟩

lemma autorejectStep_nil (chTypes : ℕ → ChKind) (d : EpochsData)
    (entry : ChKind × ℚ) :
    autorejectStep chTypes d [] entry = [] := by
  unfold autorejectStep
  split
  · rfl
  · dsimp only
    split
    · rfl
    · rw [List.zipWith_nil_left]

lemma autoreject_foldl_nil (chTypes : ℕ → ChKind) (d : EpochsData)
    (l : List (ChKind × ℚ)) :
    l.foldl (autorejectStep chTypes d) [] = [] := by
  induction l with
  | nil => rfl
  | cons x xs ih => rw [List.foldl_cons, autorejectStep_nil chTypes d x, ih]

/-- C5: on a dataset with zero epochs, every detector returns an empty
boolean array (and, for the autoreject wrapper with the dependency present,
no error is raised). -/
theorem detectors_empty_on_zero_epochs (d : EpochsData)
    (tAmp tPtp tKurt : ℚ) (rejectDict : List (ChKind × ℚ)) (chTypes : ℕ → ChKind)
    (h : d.nEpochs = 0) :
    find_bad_epochs_amplitude d tAmp = [] ∧
    find_bad_epochs_ptp d tPtp = [] ∧
    find_bad_epochs_kurtosis d tKurt = [] ∧
    find_bad_epochs_autoreject true rejectDict chTypes d = Except.ok [] := by
  refine ⟨?_, ?_, ?_, ?_⟩
  · simp [find_bad_epochs_amplitude, h]
  · simp [find_bad_epochs_ptp, h]
  · simp [find_bad_epochs_kurtosis, h]
  · unfold find_bad_epochs_autoreject
    rw [if_neg (by simp)]
    rw [h, List.replicate_zero, autoreject_foldl_nil chTypes d]

/-- Concrete zero-epoch dataset for the C5 witness. -/
def emptyEpochsData : EpochsData := ⟨0, 3, 5, fun _ _ _ => 0⟩

theorem detectors_empty_on_zero_epochs_witness :
    find_bad_epochs_amplitude emptyEpochsData 1 = [] ∧
    find_bad_epochs_ptp emptyEpochsData 1 = [] ∧
    find_bad_epochs_kurtosis emptyEpochsData 1 = [] ∧
    find_bad_epochs_autoreject true [(ChKind.eeg, 1)] (fun _ => ChKind.eeg)
        emptyEpochsData = Except.ok [] :=
  detectors_empty_on_zero_epochs emptyEpochsData 1 1 1 [(ChKind.eeg, 1)]
    (fun _ => ChKind.eeg) rfl

/-- Per-epoch mapping stored in `self.detection_results[idx]`: a partial map
from key (a method display name, or the reserved `"reject"` key) to the
stored boolean.  `none` models absence of the dict key. -/
def EpochEntry : Type := String → Option Bool

/-- The `detection_results` dict of `ArtifactDetectionDialog`: `n` epoch
entries with integer keys `0 .. n-1` (`n = 0` models the empty dict, which is
falsy in Python). -/
structure ResultsTable where
  n : ℕ
  entry : ℕ → EpochEntry

/-- The `if not self.detection_results: self.detection_results = {i: {} for i
in range(n_epochs)}` initialisation at the top of `run_detection`. -/
def initTable (st : ResultsTable) (nEpochs : ℕ) : ResultsTable :=
  if st.n = 0 then ⟨nEpochs, fun _ _ => none⟩ else st

/-- `self.detection_results[idx].pop(method, None)` for every epoch index and
every deselected pending method. -/
def removeMethods (e : ℕ → EpochEntry) (nEpochs : ℕ) (toRemove : List String) :
    ℕ → EpochEntry :=
  fun i k => if i < nEpochs ∧ k ∈ toRemove then none else e i k

/-- Running the detector of each pending-and-selected method over the whole
dataset and storing `bool(bad_epochs[idx])` under the method's key for every
epoch.  `f m i` abstracts `detection_methods[m]["function"](data, **params)[i]`
for the current data and parameters. -/
def runMethods (f : String → ℕ → Bool) (e : ℕ → EpochEntry) (nEpochs : ℕ)
    (toRun : List String) : ℕ → EpochEntry :=
  fun i k => if i < nEpochs ∧ k ∈ toRun then some (f k i) else e i k

/-- The final loop of `run_detection`: for every epoch,
`detection_results[idx]["reject"] = any(detection_results[idx].get(method,
False) for method in selected)`. -/
def setReject (e : ℕ → EpochEntry) (nEpochs : ℕ) (selected : List String) :
    ℕ → EpochEntry :=
  fun i k =>
    if i < nEpochs ∧ k = "reject" then
      some (selected.any fun m => (e i m).getD false)
    else e i k

/-- `ArtifactDetectionDialog.run_detection`, as a pure transition on the
results table.  `selected` is the list of currently selected method names (in
registry order), `pending` the set of methods whose selection or parameters
changed since the last run. -/
def run_detection (f : String → ℕ → Bool) (nEpochs : ℕ)
    (selected pending : List String) (st : ResultsTable) : ResultsTable :=
  ⟨(initTable st nEpochs).n,
    setReject
      (runMethods f
        (removeMethods (initTable st nEpochs).entry nEpochs
          (pending.filter fun m => !selected.contains m))
        nEpochs (pending.filter fun m => selected.contains m))
      nEpochs selected⟩

lemma any_congr {α : Type} {l : List α} {f g : α → Bool}
    (h : ∀ a ∈ l, f a = g a) : l.any f = l.any g := by
  induction l with
  | nil => rfl
  | cons x xs ih =>
    simp only [List.any_cons, h x (by simp)]
    rw [ih fun a ha => h a (by simp [ha])]

/-- C1: after `run_detection`, every epoch's stored `"reject"` value equals
the logical OR (`List.any`) of the stored booleans of the currently selected
methods for that epoch, and this holds for an arbitrary prior table `st` — in
particular the recomputation overwrites any previously stored `"reject"`
value, including a manual override. -/
theorem run_detection_reject_or (f : String → ℕ → Bool) (nEpochs : ℕ)
    (selected pending : List String) (st : ResultsTable) (i : ℕ)
    (hi : i < nEpochs) (hsel : "reject" ∉ selected) :
    (run_detection f nEpochs selected pending st).entry i "reject" =
      some (selected.any fun m =>
        ((run_detection f nEpochs selected pending st).entry i m).getD false) := by
  have hmain : (run_detection f nEpochs selected pending st).entry i "reject" =
      some (selected.any fun m =>
        ((runMethods f
          (removeMethods (initTable st nEpochs).entry nEpochs
            (pending.filter fun m => !selected.contains m))
          nEpochs (pending.filter fun m => selected.contains m)) i m).getD false) := by
    show setReject _ nEpochs selected i "reject" = _
    unfold setReject
    rw [if_pos ⟨hi, rfl⟩]
  rw [hmain]
  congr 1
  apply any_congr
  intro m hm
  have hne : m ≠ "reject" := fun h => hsel (h ▸ hm)
  show _ = ((setReject _ nEpochs selected i m).getD false)
  unfold setReject
  rw [if_neg fun hcon => hne hcon.2]

/-- Concrete prior table holding a manual override (`reject = false` stored
for epoch 0) that the next detection run overwrites. -/
def overrideTable : ResultsTable :=
  ⟨1, fun _ k => if k = "reject" then some false else none⟩

theorem run_detection_reject_or_witness :
    (run_detection (fun _ _ => true) 1 ["Kurtosis"] [] overrideTable).entry 0 "reject" =
      some (["Kurtosis"].any fun m =>
        ((run_detection (fun _ _ => true) 1 ["Kurtosis"] [] overrideTable).entry
            0 m).getD false) :=
  run_detection_reject_or (fun _ _ => true) 1 ["Kurtosis"] [] overrideTable 0
    (by decide) (by decide)

/-- C6: for any table state satisfying the reachability invariants maintained
by `schedule_detection` (the dict is empty or covers all epochs; every
selected method is pending or already stored; every stored stale key is
selected or pending for removal), after `run_detection` with a non-empty
selection the table has an entry for every epoch index, and for every epoch
the set of non-`"reject"` keys present equals the set of currently selected
methods. -/
theorem run_detection_keys (f : String → ℕ → Bool) (nEpochs : ℕ)
    (selected pending : List String) (st : ResultsTable) (i : ℕ)
    (hi : i < nEpochs)
    (hn : st.n = 0 ∨ st.n = nEpochs)
    (_hne : selected ≠ [])
    (_hsel : "reject" ∉ selected)
    (hcov : ∀ m ∈ selected,
      m ∈ pending ∨ ((initTable st nEpochs).entry i m).isSome = true)
    (hstale : ∀ k, k ≠ "reject" →
      ((initTable st nEpochs).entry i k).isSome = true →
      k ∈ selected ∨ k ∈ pending) :
    (run_detection f nEpochs selected pending st).n = nEpochs ∧
    ∀ k, k ≠ "reject" →
      (((run_detection f nEpochs selected pending st).entry i k).isSome = true ↔
        k ∈ selected) := by
  constructor
  · show (initTable st nEpochs).n = nEpochs
    unfold initTable
    rcases hn with h0 | hsame
    · rw [if_pos h0]
    · split
      · rfl
      · exact hsame
  · intro k hk
    have hentry : (run_detection f nEpochs selected pending st).entry i k =
        (runMethods f
          (removeMethods (initTable st nEpochs).entry nEpochs
            (pending.filter fun m => !selected.contains m))
          nEpochs (pending.filter fun m => selected.contains m)) i k := by
      show setReject _ nEpochs selected i k = _
      unfold setReject
      rw [if_neg fun hcon => hk hcon.2]
    rw [hentry]
    unfold runMethods removeMethods
    by_cases hrun : k ∈ pending.filter fun m => selected.contains m
    · rw [if_pos ⟨hi, hrun⟩]
      simp only [Option.isSome_some, true_iff]
      have := List.mem_filter.mp hrun
      simpa using this.2
    · rw [if_neg fun hcon => hrun hcon.2]
      by_cases hrem : k ∈ pending.filter fun m => !selected.contains m
      · rw [if_pos ⟨hi, hrem⟩]
        simp only [Option.isSome_none, Bool.false_eq_true, false_iff]
        intro hksel
        have := List.mem_filter.mp hrem
        simp only [Bool.not_eq_true'] at this
        have : k ∉ selected := by simpa using this.2
        exact this hksel
      · rw [if_neg fun hcon => hrem hcon.2]
        constructor
        · intro hsome
          rcases hstale k hk hsome with h | hp
          · exact h
          · exfalso
            by_cases hks : k ∈ selected
            · exact hrun (List.mem_filter.mpr ⟨hp, by simpa using hks⟩)
            · exact hrem (List.mem_filter.mpr ⟨hp, by simpa using hks⟩)
        · intro hksel
          rcases hcov k hksel with hp | hsome
          · exact absurd (List.mem_filter.mpr ⟨hp, by simpa using hksel⟩) hrun
          · exact hsome

theorem run_detection_keys_witness :
    (run_detection (fun _ _ => true) 2 ["Kurtosis"] ["Kurtosis", "Peak-to-peak"]
        ⟨0, fun _ _ => none⟩).n = 2 ∧
    ∀ k, k ≠ "reject" →
      (((run_detection (fun _ _ => true) 2 ["Kurtosis"] ["Kurtosis", "Peak-to-peak"]
          ⟨0, fun _ _ => none⟩).entry 0 k).isSome = true ↔ k ∈ ["Kurtosis"]) :=
  run_detection_keys (fun _ _ => true) 2 ["Kurtosis"] ["Kurtosis", "Peak-to-peak"]
    ⟨0, fun _ _ => none⟩ 0 (by decide) (Or.inl rfl) (by decide) (by decide)
    (by decide)
    (fun k _ hs => absurd hs (by simp [initTable]))

/-- Minimal heap of per-epoch dict objects, modelling Python object identity
for the preview table's copy semantics. -/
structure Heap where
  cells : ℕ → EpochEntry

/-- A reference to a detection-results dict: epoch `i`'s per-epoch dict is
the heap cell at address `addr i`. -/
structure TableRef where
  n : ℕ
  addr : ℕ → ℕ

/-- Reading epoch `i`'s per-epoch dict through a reference. -/
def readTable (h : Heap) (r : TableRef) (i : ℕ) : EpochEntry :=
  h.cells (r.addr i)

/-- Mutating one key of the dict object at address `a`
(`results[key] = value` in Python). -/
def writeKey (h : Heap) (a : ℕ) (k : String) (b : Bool) : Heap :=
  ⟨fun a2 =>
    if a2 = a then (fun k2 => if k2 = k then some b else h.cells a k2)
    else h.cells a2⟩

/-- `ArtifactPreviewTable.__init__`: `self.detection_results = {idx:
results.copy() for idx, results in detection_results.items()}` — a fresh dict
per epoch at the fresh addresses `base, base + 1, ...`, each holding a copy of
the parent dict's contents. -/
def previewInit (h : Heap) (parent : TableRef) (base : ℕ) : Heap × TableRef :=
  (⟨fun a =>
      if base ≤ a ∧ a - base < parent.n then h.cells (parent.addr (a - base))
      else h.cells a⟩,
   ⟨parent.n, fun i => base + i⟩)

/-- One manual edit in the preview dialog: writing key `k` of epoch `i`'s
copied dict (in the source this is always the `"reject"` key, written by
`sync_results_from_table` or `_update_from_visualization`). -/
def applyEdit (h : Heap) (r : TableRef) (e : ℕ × String × Bool) : Heap :=
  writeKey h (r.addr e.1) e.2.1 e.2.2

/-- A sequence of manual edits against the preview's reference. -/
def applyEdits (h : Heap) (r : TableRef) (es : List (ℕ × String × Bool)) : Heap :=
  es.foldl (fun h2 e => applyEdit h2 r e) h

/-- `show_preview_table`: the parent dialog's `detection_results` reference is
replaced by the preview's dict only when the preview dialog is accepted
(`dialog.exec() == QDialog.Accepted`); on rejection the parent keeps its own
reference. -/
def previewClose (accepted : Bool) (parent preview : TableRef) : TableRef :=
  if accepted then preview else parent

lemma applyEdits_cells_of_low (pr : TableRef) (es : List (ℕ × String × Bool))
    (hp : Heap) (a : ℕ) (hlow : ∀ j, a ≠ pr.addr j) :
    (applyEdits hp pr es).cells a = hp.cells a := by
  induction es generalizing hp with
  | nil => rfl
  | cons e es ih =>
    show (applyEdits (applyEdit hp pr e) pr es).cells a = hp.cells a
    rw [ih]
    show (writeKey hp (pr.addr e.1) e.2.1 e.2.2).cells a = hp.cells a
    unfold writeKey
    exact if_neg (hlow e.1)

/-- C10: the preview operates on per-epoch copies at fresh addresses; after
any sequence of manual edits through the preview's reference, closing the
preview with rejection leaves the parent's table — every per-method boolean
and every `"reject"` flag of every epoch — exactly as it was before the
preview was opened. -/
theorem preview_cancel_frame (h : Heap) (parent : TableRef) (base : ℕ)
    (hfresh : ∀ i < parent.n, parent.addr i < base)
    (es : List (ℕ × String × Bool)) (i : ℕ) (hi : i < parent.n) :
    readTable (applyEdits (previewInit h parent base).1 (previewInit h parent base).2 es)
        (previewClose false parent (previewInit h parent base).2) i =
      readTable h parent i := by
  have hlow : parent.addr i < base := hfresh i hi
  have hclose : previewClose false parent (previewInit h parent base).2 = parent := rfl
  rw [hclose]
  show (applyEdits (previewInit h parent base).1 (previewInit h parent base).2 es).cells
      (parent.addr i) = h.cells (parent.addr i)
  rw [applyEdits_cells_of_low]
  · show (previewInit h parent base).1.cells (parent.addr i) = h.cells (parent.addr i)
    unfold previewInit
    exact if_neg fun hcon => absurd hcon.1 (by omega)
  · intro j
    show parent.addr i ≠ base + j
    omega

/-- Concrete one-epoch heap/reference for the C10 witness: the parent dict
lives at address 0, the preview copy at address 1, and the edit flips the
copy's `"reject"` key. -/
def frameWitnessHeap : Heap := ⟨fun _ _ => some false⟩

theorem preview_cancel_frame_witness :
    readTable
        (applyEdits (previewInit frameWitnessHeap ⟨1, fun _ => 0⟩ 1).1
          (previewInit frameWitnessHeap ⟨1, fun _ => 0⟩ 1).2 [(0, "reject", true)])
        (previewClose false ⟨1, fun _ => 0⟩
          (previewInit frameWitnessHeap ⟨1, fun _ => 0⟩ 1).2) 0 =
      readTable frameWitnessHeap ⟨1, fun _ => 0⟩ 0 :=
  preview_cancel_frame frameWitnessHeap ⟨1, fun _ => 0⟩ 1
    (fun _ _ => Nat.one_pos) [(0, "reject", true)] 0 (by decide)

/-- Python `repr` of a list of ints, e.g. `[2, 5]`. -/
def listRepr (l : List ℕ) : String :=
  "[" ++ ", ".intercalate (l.map toString) ++ "]"

/-- The `auto_rejected` set of `get_history_code`: epoch indices flagged by
any currently selected method (`any(results.get(method, False) for method in
selected_methods.keys())`), as the ascending list of indices. -/
def autoRejectedList (selected : List String) (t : ResultsTable) : List ℕ :=
  (List.range t.n).filter fun i =>
    selected.any fun m => (t.entry i m).getD false

/-- `get_bad_epochs`: epoch indices whose stored `"reject"` value is truthy,
in ascending index order (Python dict iteration follows key insertion order
`0 .. n-1`). -/
def finalRejects (t : ResultsTable) : List ℕ :=
  (List.range t.n).filter fun i => (t.entry i "reject").getD false

/-- `manual_added = list(final_rejects - auto_rejected)` (set difference; the
model uses ascending order, the order of a Python set of small ints being
implementation-defined). -/
def manualAdded (selected : List String) (t : ResultsTable) : List ℕ :=
  (finalRejects t).filter fun i => !(autoRejectedList selected t).contains i

/-- `manual_removed = list(auto_rejected - final_rejects)`. -/
def manualRemoved (selected : List String) (t : ResultsTable) : List ℕ :=
  (autoRejectedList selected t).filter fun i => !(finalRejects t).contains i

/-- `self.detection_methods[method]["function"].__name__` for the registry
methods (any other name would raise a `KeyError` in the source and never
occurs). -/
def funcName (m : String) : String :=
  if m = "Extreme values" then "find_bad_epochs_amplitude"
  else if m = "Peak-to-peak" then "find_bad_epochs_ptp"
  else if m = "Kurtosis" then "find_bad_epochs_kurtosis"
  else if m = "AutoReject" then "find_bad_epochs_autoreject"
  else ""

/-- `", ".join(f"{name}={value}" for name, value in params.items())`
(parameter values are rendered with Lean's rational formatting in place of
Python float formatting; the claims do not depend on the numeral text). -/
def paramStr (ps : List (String × ℚ)) : String :=
  ", ".intercalate (ps.map fun p => p.1 ++ "=" ++ toString p.2)

/-- The per-method call line of `get_history_code`
(`f"{var_name} = {func_name}(data, {param_str})"`, or without parameters
`f"{var_name} = {func_name}(data)"`, with
`var_name = f"bad_epochs_{method.lower()}"`). -/
def methodLine (m : String) (ps : List (String × ℚ)) : String :=
  "bad_epochs_" ++ (m.toLower ++ (" = " ++ (funcName m ++
    (if ps.isEmpty then "(data)" else "(data, " ++ (paramStr ps ++ ")")))))

/-- The `bad_epochs_mask = ...` line: the single variable when one method is
selected, otherwise the `|`-join of all method variables. -/
def maskLine (vars : List String) : String :=
  if vars.length = 1 then "bad_epochs_mask = " ++ vars.headD ""
  else "bad_epochs_mask = " ++ " | ".intercalate vars

/-- The manual-modifications tail of the generated script: present iff the
manual added/removed lists are non-empty, in which case the automatic list is
copied, extended with the additions, filtered by the removals, and dropped;
otherwise the automatic list is dropped directly. -/
def manualLines (added removed : List ℕ) : List String :=
  if added ≠ [] ∨ removed ≠ [] then
    ["\n# manual modifications", "bad_epochs_final = bad_epochs_auto.copy()"]
      ++ (if added ≠ [] then
            ["bad_epochs_final.extend(" ++ (listRepr added ++ ")")]
          else [])
      ++ (if removed ≠ [] then
            ["bad_epochs_final = [idx for idx in bad_epochs_final if idx not in "
              ++ (listRepr removed ++ "]")]
          else [])
      ++ ["data.drop(bad_epochs_final, reason=\x27ARTIFACT_DETECTION\x27)"]
  else
    ["data.drop(bad_epochs_auto, reason=\x27ARTIFACT_DETECTION\x27)"]

/-- `ArtifactDetectionDialog.get_history_code` as the list of generated code
lines (the source joins them with newlines).  `selected` carries the selected
methods with their (unit-converted) parameters, in registry order. -/
def get_history_code_lines (selected : List (String × List (String × ℚ)))
    (t : ResultsTable) : List String :=
  ["\n# artifact detection"]
    ++ selected.map (fun p => methodLine p.1 p.2)
    ++ [maskLine (selected.map fun p => "bad_epochs_" ++ p.1.toLower),
        "bad_epochs_auto = np.where(bad_epochs_mask)[0].tolist()"]
    ++ manualLines (manualAdded (selected.map Prod.fst) t)
        (manualRemoved (selected.map Prod.fst) t)

/-- The generated script text (`"\n".join(code_lines)`). -/
def get_history_code (selected : List (String × List (String × ℚ)))
    (t : ResultsTable) : String :=
  "\n".intercalate (get_history_code_lines selected t)

/-- The set of indices the generated statements drop when executed: starting
from `bad_epochs_auto` (ascending, as `np.where(...).tolist()` yields, under
the Computed-state assumption that re-running the detectors reproduces the
stored per-method outcomes), `.extend(manual_added)` appends and the list
comprehension filters out `manual_removed`; without a manual block the
automatic list is dropped as is. -/
def scriptDropped (selected : List String) (t : ResultsTable) : List ℕ :=
  if manualAdded selected t ≠ [] ∨ manualRemoved selected t ≠ [] then
    (autoRejectedList selected t ++ manualAdded selected t).filter
      fun i => !(manualRemoved selected t).contains i
  else
    autoRejectedList selected t

lemma mem_manualAdded (selected : List String) (t : ResultsTable) (x : ℕ) :
    x ∈ manualAdded selected t ↔
      x ∈ finalRejects t ∧ x ∉ autoRejectedList selected t := by
  simp [manualAdded, List.mem_filter]

lemma mem_manualRemoved (selected : List String) (t : ResultsTable) (x : ℕ) :
    x ∈ manualRemoved selected t ↔
      x ∈ autoRejectedList selected t ∧ x ∉ finalRejects t := by
  simp [manualRemoved, List.mem_filter]

lemma manual_nil_iff (selected : List String) (t : ResultsTable) :
    (manualAdded selected t = [] ∧ manualRemoved selected t = []) ↔
      (autoRejectedList selected t).toFinset = (finalRejects t).toFinset := by
  rw [List.eq_nil_iff_forall_not_mem, List.eq_nil_iff_forall_not_mem]
  constructor
  · rintro ⟨ha, hr⟩
    ext x
    have ha2 := ha x
    have hr2 := hr x
    rw [mem_manualAdded] at ha2
    rw [mem_manualRemoved] at hr2
    simp only [List.mem_toFinset]
    tauto
  · intro h
    have h2 : ∀ x, x ∈ autoRejectedList selected t ↔ x ∈ finalRejects t := by
      intro x
      have := Finset.ext_iff.mp h x
      simpa only [List.mem_toFinset] using this
    constructor <;> intro x hx
    · rw [mem_manualAdded] at hx
      exact hx.2 ((h2 x).mpr hx.1)
    · rw [mem_manualRemoved] at hx
      exact hx.2 ((h2 x).mp hx.1)

lemma mem_manualLines_iff (added removed : List ℕ) :
    "\n# manual modifications" ∈ manualLines added removed ↔
      (added ≠ [] ∨ removed ≠ []) := by
  unfold manualLines
  split
  · next hcond =>
    exact iff_of_true (List.mem_append.mpr (Or.inl (List.mem_cons_self _ _))) hcond
  · next hcond =>
    rw [List.mem_singleton]
    exact iff_of_false (by decide) hcond

lemma cons_head_ne_manual (p s : String) (c : Char) (l : List Char)
    (hp : p.data = c :: l) (hc : c ≠ '\n') :
    p ++ s ≠ "\n# manual modifications" := by
  intro h
  have hd := congrArg String.data h
  rw [String.data_append, hp, List.cons_append] at hd
  have hq : ("\n# manual modifications" : String).data =
      '\n' :: ("# manual modifications" : String).data := rfl
  rw [hq] at hd
  injection hd with h1 _
  exact hc h1

lemma methodLine_ne_manual (m : String) (ps : List (String × ℚ)) :
    methodLine m ps ≠ "\n# manual modifications" := by
  unfold methodLine
  exact cons_head_ne_manual "bad_epochs_" _ 'b' ("ad_epochs_" : String).data rfl
    (by decide)

lemma maskLine_ne_manual (vars : List String) :
    maskLine vars ≠ "\n# manual modifications" := by
  unfold maskLine
  split
  · exact cons_head_ne_manual "bad_epochs_mask = " _ 'b'
      ("ad_epochs_mask = " : String).data rfl (by decide)
  · exact cons_head_ne_manual "bad_epochs_mask = " _ 'b'
      ("ad_epochs_mask = " : String).data rfl (by decide)

lemma mem_history_lines_iff (selected : List (String × List (String × ℚ)))
    (t : ResultsTable) :
    ("\n# manual modifications" ∈ get_history_code_lines selected t ↔
      (manualAdded (selected.map Prod.fst) t ≠ [] ∨
        manualRemoved (selected.map Prod.fst) t ≠ [])) := by
  unfold get_history_code_lines
  rw [← mem_manualLines_iff (manualAdded (selected.map Prod.fst) t)
    (manualRemoved (selected.map Prod.fst) t)]
  simp only [List.mem_append, List.mem_cons, List.not_mem_nil, or_false]
  have h1 : ¬("\n# manual modifications" : String) = "\n# artifact detection" := by
    decide
  have h2 : ¬("\n# manual modifications" : String) =
      "bad_epochs_auto = np.where(bad_epochs_mask)[0].tolist()" := by decide
  have h3 : ¬"\n# manual modifications" ∈
      selected.map (fun p => methodLine p.1 p.2) := by
    intro h
    obtain ⟨p, _, hpe⟩ := List.mem_map.mp h
    exact methodLine_ne_manual p.1 p.2 hpe
  have h4 : ¬("\n# manual modifications" : String) =
      maskLine (selected.map fun p => "bad_epochs_" ++ p.1.toLower) :=
    fun h => maskLine_ne_manual _ h.symm
  tauto

/-- C3: the generated script has a manual-modifications block iff the final
reject set differs from the automatic set (the OR of the selected methods'
stored outcomes); the extend list is exactly `final - automatic` and the
filter list exactly `automatic - final`; and the index set dropped by the
generated statements equals the final reject set (dropping the automatic
list directly when no manual block is present). -/
theorem get_history_code_manual (selected : List (String × List (String × ℚ)))
    (t : ResultsTable) :
    ("\n# manual modifications" ∈ get_history_code_lines selected t ↔
      (autoRejectedList (selected.map Prod.fst) t).toFinset ≠
        (finalRejects t).toFinset) ∧
    (manualAdded (selected.map Prod.fst) t).toFinset =
      (finalRejects t).toFinset \
        (autoRejectedList (selected.map Prod.fst) t).toFinset ∧
    (manualRemoved (selected.map Prod.fst) t).toFinset =
      (autoRejectedList (selected.map Prod.fst) t).toFinset \
        (finalRejects t).toFinset ∧
    (scriptDropped (selected.map Prod.fst) t).toFinset =
      (finalRejects t).toFinset := by
  refine ⟨?_, ?_, ?_, ?_⟩
  · rw [mem_history_lines_iff]
    constructor
    · rintro (h | h) heq
      · exact h ((manual_nil_iff _ _).mpr heq).1
      · exact h ((manual_nil_iff _ _).mpr heq).2
    · intro hne
      by_contra hno
      push_neg at hno
      exact hne ((manual_nil_iff _ _).mp ⟨hno.1, hno.2⟩)
  · ext x
    simp only [List.mem_toFinset, Finset.mem_sdiff, mem_manualAdded]
  · ext x
    simp only [List.mem_toFinset, Finset.mem_sdiff, mem_manualRemoved]
  · unfold scriptDropped
    split
    · ext x
      have hadd := mem_manualAdded (selected.map Prod.fst) t x
      have hrem := mem_manualRemoved (selected.map Prod.fst) t x
      simp only [List.mem_toFinset, List.mem_filter, List.mem_append,
        Bool.not_eq_eq_eq_not, Bool.not_true, List.elem_eq_mem,
        decide_eq_false_iff_not]
      rw [hadd, hrem]
      tauto
    · next hcond =>
      push_neg at hcond
      exact (manual_nil_iff _ _).mp ⟨hcond.1, hcond.2⟩

lemma autoRejectedList_congr (S : List String) (t1 t2 : ResultsTable)
    (hn : t1.n = t2.n)
    (hagree : ∀ i < t1.n, ∀ k, t1.entry i k = t2.entry i k) :
    autoRejectedList S t1 = autoRejectedList S t2 := by
  unfold autoRejectedList
  rw [← hn]
  apply List.filter_congr
  intro i hi
  have hi2 : i < t1.n := List.mem_range.mp hi
  congr 1
  funext m
  rw [hagree i hi2 m]

lemma finalRejects_congr (t1 t2 : ResultsTable)
    (hn : t1.n = t2.n)
    (hagree : ∀ i < t1.n, ∀ k, t1.entry i k = t2.entry i k) :
    finalRejects t1 = finalRejects t2 := by
  unfold finalRejects
  rw [← hn]
  apply List.filter_congr
  intro i hi
  rw [hagree i (List.mem_range.mp hi) "reject"]

/-- C9: the generated script text is a function of the selected methods (with
their parameters, in order) and the table contents alone: two runs over
tables with the same epoch count and identical stored values for every epoch
produce byte-identical text.  In the pure embedding this is the
determinism/extensionality content of `get_history_code`. -/
theorem get_history_code_deterministic
    (selected : List (String × List (String × ℚ))) (t1 t2 : ResultsTable)
    (hn : t1.n = t2.n)
    (hagree : ∀ i < t1.n, ∀ k, t1.entry i k = t2.entry i k) :
    get_history_code selected t1 = get_history_code selected t2 := by
  have hauto := autoRejectedList_congr (selected.map Prod.fst) t1 t2 hn hagree
  have hfinal := finalRejects_congr t1 t2 hn hagree
  unfold get_history_code get_history_code_lines manualAdded manualRemoved
  rw [hauto, hfinal]

/-- One-epoch table equal to `detWitnessRight` on every stored value but
different (as a function) outside the epoch range. -/
def detWitnessLeft : ResultsTable :=
  ⟨1, fun i k => if i = 0 then (if k = "reject" then some true else none)
    else some true⟩

/-- One-epoch table agreeing with `detWitnessLeft` on epoch 0. -/
def detWitnessRight : ResultsTable :=
  ⟨1, fun i k => if i = 0 then (if k = "reject" then some true else none)
    else none⟩

theorem get_history_code_deterministic_witness :
    get_history_code [("Kurtosis", [("threshold", 5)])] detWitnessLeft =
      get_history_code [("Kurtosis", [("threshold", 5)])] detWitnessRight :=
  get_history_code_deterministic [("Kurtosis", [("threshold", 5)])]
    detWitnessLeft detWitnessRight rfl
    (fun i hi k => by
      have h1 : i < 1 := hi
      have h0 : i = 0 := by omega
      subst h0
      rfl)

end Mnelab
